import Mathlib

/-
Verification of the rule-based commercial-legal-case information extractor
in `text-summarizer/legal_summary.py` (class `CommercialLegalSummarizer`
and the Flask endpoint around it).

Text is modelled as `List Char` (Python `str`).  The external spaCy
pipeline (`self.nlp`) is not part of the repository: its outputs — the
named entities and the sentence segmentation of a document — are modelled
as an input value of type `Doc`, exactly the two projections (`doc.ents`,
`doc.sents`) the extractor code reads.  Everything the Python code itself
computes (regex money matching, context windows, keyword tests,
dictionary updates, summary assembly, the outcome state machine, the
endpoint handler) is translated directly.
-/

namespace LegalSummary

/-- Python strings, as lists of characters. -/
abbrev Str := List Char

/-- ASCII lowercasing of one character; models Python `str.lower` on the
ASCII range (all keywords compared by the code are ASCII). -/
def lowerChar (c : Char) : Char :=
  if 'A' ≤ c ∧ c ≤ 'Z' then Char.ofNat (c.toNat + 32) else c

/-- Python `s.lower()`. -/
def lower (s : Str) : Str := s.map lowerChar

/-- Python substring test `needle in hay`. -/
def containsSub (needle : Str) : Str → Bool
  | [] => needle.isEmpty
  | c :: rest => needle.isPrefixOf (c :: rest) || containsSub needle rest

/-- Python `any(term in s for term in terms)`. -/
def containsAny (terms : List Str) (s : Str) : Bool :=
  terms.any fun t => containsSub t s

/-- Python slice `s[a:b]` for clamped nonnegative indices (Python clamps
out-of-range bounds, as `drop`/`take` do). -/
def slice (s : Str) (a b : Nat) : Str := (s.drop a).take (b - a)

/-! ### Monetary value extraction (`extract_monetary_values`)

The money regex is
`\$\s*\d+(?:,\d{3})*(?:\.\d{2})?(?:\s*(?:million|billion|trillion))?`.
Every component after `\$` starts with a character class disjoint from
the previous component's, so Python's leftmost/greedy matching is the
deterministic greedy scan implemented here. -/

/-- ASCII decimal digit, the `\d` class of the money regex. -/
def isDigitCh (c : Char) : Bool := '0' ≤ c && c ≤ '9'

/-- Python `\s` on the ASCII range. -/
def isSpaceCh (c : Char) : Bool :=
  c = ' ' || c = '\t' || c = '\n' || c = '\r' || c = '\x0b' || c = '\x0c'

/-- Length of the maximal prefix satisfying `p` (a greedy `*`). -/
def countWhile (p : Char → Bool) (s : Str) : Nat := (s.takeWhile p).length

/-- Number of characters consumed by the greedy `(?:,\d{3})*`. -/
def commaGroups : Str → Nat
  | ',' :: a :: b :: c :: rest =>
      if isDigitCh a && isDigitCh b && isDigitCh c then 4 + commaGroups rest else 0
  | _ => 0

/-- Number of characters consumed by `(?:\.\d{2})?`. -/
def decimalPart : Str → Nat
  | '.' :: a :: b :: _ => if isDigitCh a && isDigitCh b then 3 else 0
  | _ => 0

/-- Number of characters consumed by `(?:\s*(?:million|billion|trillion))?`. -/
def magnitudePart (s : Str) : Nat :=
  let w := countWhile isSpaceCh s
  let rest := s.drop w
  if ("million".toList).isPrefixOf rest then w + 7
  else if ("billion".toList).isPrefixOf rest then w + 7
  else if ("trillion".toList).isPrefixOf rest then w + 8
  else 0

/-- Attempt to match the money regex at the head of `s`; returns the
number of characters matched. -/
def matchMoney : Str → Option Nat
  | '$' :: rest =>
      let w := countWhile isSpaceCh rest
      let s1 := rest.drop w
      let d := countWhile isDigitCh s1
      if d = 0 then none
      else
        let s2 := s1.drop d
        let g := commaGroups s2
        let s3 := s2.drop g
        let dec := decimalPart s3
        let s4 := s3.drop dec
        some (1 + w + d + g + dec + magnitudePart s4)
  | _ => none

/-- All matches of the money regex, as `(start, end)` character spans in
document order, modelling `re.finditer`.  A successful match consumes a
`$` followed by spaces, digits, commas, a dot or magnitude letters, and
so never contains a further `$`; hence matches are disjoint and trying
every position finds exactly the matches `finditer` finds. -/
def findMatches : Str → Nat → List (Nat × Nat)
  | [], _ => []
  | c :: rest, pos =>
      match matchMoney (c :: rest) with
      | some n => (pos, pos + n) :: findMatches rest (pos + 1)
      | none => findMatches rest (pos + 1)

/-- The four monetary categories of `monetary_dict`. -/
inductive MCat
  | damages
  | costs
  | settlements
  | other
deriving DecidableEq

/-- Result dictionary of `extract_monetary_values`. -/
structure MonetaryDict where
  damages : List Str
  costs : List Str
  settlements : List Str
  other : List Str
deriving DecidableEq

/-- The cascading `if`/`elif` classification of a match's context window. -/
def classifyContext (context : Str) : MCat :=
  if containsAny ["damage".toList, "compensation".toList] (lower context) then .damages
  else if containsSub "cost".toList (lower context) then .costs
  else if containsSub "settle".toList (lower context) then .settlements
  else .other

/-- Append `amount` to the list of category `c`. -/
def mcatAdd : MCat → Str → MonetaryDict → MonetaryDict
  | .damages, a, d => { d with damages := d.damages ++ [a] }
  | .costs, a, d => { d with costs := d.costs ++ [a] }
  | .settlements, a, d => { d with settlements := d.settlements ++ [a] }
  | .other, a, d => { d with other := d.other ++ [a] }

/-- One iteration of the `for match in matches` loop. -/
def monetaryStep (text : Str) (d : MonetaryDict) (m : Nat × Nat) : MonetaryDict :=
  let amount := slice text m.1 m.2
  let context := slice text (m.1 - 50) (m.2 + 50)
  mcatAdd (classifyContext context) amount d

/-- `extract_monetary_values`. -/
def extract_monetary_values (text : Str) : MonetaryDict :=
  (findMatches text 0).foldl (monetaryStep text) ⟨[], [], [], []⟩

/-! ### The spaCy document model

The code reads exactly these fields of the external pipeline's output:
entity label, text and character span (`extract_parties`), entity token
span and the sentence list with token spans (`extract_key_dates`), and
sentence texts (`extract_contract_elements`, `analyze_case_outcome`). -/

/-- spaCy entity labels distinguished by the code. -/
inductive EntLabel
  | ORG
  | PERSON
  | DATE
  | otherLabel
deriving DecidableEq

/-- A named entity of the external NER: `ent.label_`, `ent.text`,
`ent.start_char`/`ent.end_char` (character span) and `ent.start`/`stop`
(token span; `stop` models spaCy's `ent.end`). -/
structure Ent where
  label : EntLabel
  text : Str
  start_char : Nat
  end_char : Nat
  start : Nat
  stop : Nat
deriving DecidableEq

/-- A sentence of the external segmenter: its text and token span
(`stop` models spaCy's `sent.end`). -/
structure Sent where
  text : Str
  start : Nat
  stop : Nat
deriving DecidableEq

/-- The parts of a spaCy `Doc` the extractors read. -/
structure Doc where
  ents : List Ent
  sents : List Sent
deriving DecidableEq

/-! ### Party extraction (`extract_parties`) -/

/-- Result of `extract_parties`.  Python accumulates three `set`s and
returns `list(...)` of each; the sets are modelled as order-preserving
duplicate-free lists (`insertNew`), which carries exactly the membership
and duplicate-freedom content of a Python set. -/
structure Parties where
  plaintiffs : List Str
  defendants : List Str
  other_parties : List Str
deriving DecidableEq

/-- `set.add`: insert unless already present. -/
def insertNew (x : Str) (l : List Str) : List Str :=
  if x ∈ l then l else l ++ [x]

/-- One iteration of the entity loop of `extract_parties`. -/
def partiesStep (text : Str) (p : Parties) (ent : Ent) : Parties :=
  if ent.label = .ORG ∨ ent.label = .PERSON then
    let context := lower (slice text (ent.start_char - 20) (ent.end_char + 20))
    if containsSub "plaintiff".toList context then
      { p with plaintiffs := insertNew ent.text p.plaintiffs }
    else if containsSub "defendant".toList context then
      { p with defendants := insertNew ent.text p.defendants }
    else
      { p with other_parties := insertNew ent.text p.other_parties }
  else p

/-- `extract_parties`. -/
def extract_parties (text : Str) (doc : Doc) : Parties :=
  doc.ents.foldl (partiesStep text) ⟨[], [], []⟩

/-! ### Key date extraction (`extract_key_dates`) -/

/-- The four event labels used as dictionary keys. -/
inductive DateLabel
  | case_filing
  | contract_date
  | breach_date
  | judgment_date
deriving DecidableEq

/-- A stored `(ent.text, context)` pair. -/
abbrev DateEntry := Str × Str

/-- The `dates` dictionary, modelled as an association list with Python
dict semantics: updating an existing key keeps its position, a new key
is appended (insertion order). -/
abbrev DateDict := List (DateLabel × DateEntry)

/-- Python `d[k] = v`. -/
def dictSet (k : DateLabel) (v : DateEntry) : DateDict → DateDict
  | [] => [(k, v)]
  | (k2, v2) :: rest => if k2 = k then (k, v) :: rest else (k2, v2) :: dictSet k v rest

/-- Python `d.get(k)`. -/
def dictFind (k : DateLabel) : DateDict → Option DateEntry
  | [] => none
  | (k2, v2) :: rest => if k2 = k then some v2 else dictFind k rest

def dateFilingTerms : List Str := ["filed".toList, "commenced".toList, "initiated".toList]

def dateContractTerms : List Str := ["contract".toList, "agreement".toList, "signed".toList]

def dateBreachTerms : List Str := ["breach".toList, "default".toList, "violation".toList]

def dateJudgmentTerms : List Str := ["judgment".toList, "decided".toList, "ruled".toList]

/-- The body of the entity loop of `extract_key_dates` for one entity:
for a `DATE` entity, the first sentence whose token span contains the
entity's (`next(...)` over `doc.sents`) is looked up; its text is the
context and the cascading `if`/`elif` picks a label, else nothing is
stored. -/
def classifyDateEnt (sents : List Sent) (e : Ent) : Option (DateLabel × DateEntry) :=
  if e.label = .DATE then
    match sents.find? (fun s => decide (e.start ≥ s.start) && decide (e.stop ≤ s.stop)) with
    | some sent =>
        let context := sent.text
        if containsAny dateFilingTerms (lower context) then
          some (.case_filing, (e.text, context))
        else if containsAny dateContractTerms (lower context) then
          some (.contract_date, (e.text, context))
        else if containsAny dateBreachTerms (lower context) then
          some (.breach_date, (e.text, context))
        else if containsAny dateJudgmentTerms (lower context) then
          some (.judgment_date, (e.text, context))
        else none
    | none => none
  else none

/-- Store a classification result, if any (`dates[key] = value`). -/
def dictSetOpt (o : Option (DateLabel × DateEntry)) (dates : DateDict) : DateDict :=
  match o with
  | some (k, v) => dictSet k v dates
  | none => dates

/-- `extract_key_dates`. -/
def extract_key_dates (doc : Doc) : DateDict :=
  doc.ents.foldl (fun dates e => dictSetOpt (classifyDateEnt doc.sents e) dates) []

/-! ### Contract element extraction (`extract_contract_elements`) -/

/-- Result of `extract_contract_elements`: four document-ordered
sentence lists. -/
structure ContractElements where
  obligations : List Str
  breaches : List Str
  remedies : List Str
  terms : List Str
deriving DecidableEq

def obligationTerms : List Str := ["shall".toList, "must".toList, "required to".toList]

def breachTerms : List Str := ["breach".toList, "violation".toList, "failed to".toList]

def remedyTerms : List Str := ["damages".toList, "remedy".toList, "relief".toList, "compensate".toList]

def termTerms : List Str := ["term".toList, "condition".toList, "provision".toList]

/-- One iteration of the sentence loop: four independent keyword tests
on the lower-cased sentence, each appending the original sentence text. -/
def ceStep (els : ContractElements) (sent : Sent) : ContractElements :=
  let sent_text := lower sent.text
  let els :=
    if containsAny obligationTerms sent_text then
      { els with obligations := els.obligations ++ [sent.text] } else els
  let els :=
    if containsAny breachTerms sent_text then
      { els with breaches := els.breaches ++ [sent.text] } else els
  let els :=
    if containsAny remedyTerms sent_text then
      { els with remedies := els.remedies ++ [sent.text] } else els
  let els :=
    if containsAny termTerms sent_text then
      { els with terms := els.terms ++ [sent.text] } else els
  els

/-- `extract_contract_elements`. -/
def extract_contract_elements (doc : Doc) : ContractElements :=
  doc.sents.foldl ceStep ⟨[], [], [], []⟩

/-! ### Outcome analysis (`analyze_case_outcome`)

Only the sentence texts of the document are read, so the analyzer is
modelled over the list of sentence texts. -/

/-- The `outcome` record. -/
structure Outcome where
  decision : Option Str
  reasoning : List Str
  damages_awarded : Option Str
  key_findings : List Str
deriving DecidableEq

/-- The record as initialised. -/
def emptyOutcome : Outcome := ⟨none, [], none, []⟩

def triggerTerms : List Str := ["court finds".toList, "court concludes".toList, "it is ordered".toList]

def decisionTerms : List Str := ["grant".toList, "deny".toList, "dismiss".toList]

def reasoningTerms : List Str := ["because".toList, "therefore".toList, "thus".toList, "accordingly".toList]

def findingTerms : List Str := ["finds".toList, "concludes".toList, "determines".toList]

/-- The judgment-indicator test on a sentence. -/
def hasTrigger (sent : Str) : Bool := containsAny triggerTerms (lower sent)

/-- The `if judgment_section:` classification block for one sentence. -/
def classifySent (o : Outcome) (sent : Str) : Outcome :=
  let sent_text := lower sent
  if containsAny decisionTerms sent_text then { o with decision := some sent }
  else if containsSub "damages".toList sent_text then { o with damages_awarded := some sent }
  else if containsAny reasoningTerms sent_text then { o with reasoning := o.reasoning ++ [sent] }
  else if containsAny findingTerms sent_text then { o with key_findings := o.key_findings ++ [sent] }
  else o

/-- One iteration of the sentence loop: the trigger test runs first and
raises the `judgment_section` flag, and the classification block then
runs on the very same sentence whenever the flag is (now) set. -/
def outcomeStep (st : Outcome × Bool) (sent : Str) : Outcome × Bool :=
  let judgment_section := st.2 || hasTrigger sent
  (if judgment_section then classifySent st.1 sent else st.1, judgment_section)

/-- `analyze_case_outcome`, over the document's sentence texts. -/
def analyze_case_outcome (sents : List Str) : Outcome :=
  (sents.foldl outcomeStep (emptyOutcome, false)).1

/-! ### Summary assembly (`generate_commercial_summary`)

The Python function appends lines to `summary_parts` sequentially;
concatenating the conditional per-section blocks below yields the same
list.  Dictionary iteration orders are the fixed insertion orders of the
literal dictionaries (`damages, costs, settlements, other` and
`obligations, breaches, remedies, terms`). -/

/-- Python `", ".join(l)`. -/
def joinComma (l : List Str) : Str := List.intercalate (", ".toList) l

/-- The parties block: the header is appended unconditionally, the
`Plaintiff(s)`/`Defendant(s)` lines only when their lists are nonempty. -/
def partiesSection (p : Parties) : List Str :=
  "PARTIES INVOLVED:".toList
    :: ((if p.plaintiffs.isEmpty then [] else ["Plaintiff(s): ".toList ++ joinComma p.plaintiffs])
      ++ (if p.defendants.isEmpty then [] else ["Defendant(s): ".toList ++ joinComma p.defendants]))

/-- `event.replace('_', ' ').title()` evaluated on the four fixed keys. -/
def dateLabelTitle : DateLabel → Str
  | .case_filing => "Case Filing".toList
  | .contract_date => "Contract Date".toList
  | .breach_date => "Breach Date".toList
  | .judgment_date => "Judgment Date".toList

/-- The key-dates block (`if dates:` then one line per stored entry, in
dict order). -/
def datesSection (dates : DateDict) : List Str :=
  if dates.isEmpty then []
  else "\nKEY DATES:".toList
    :: dates.map fun p => dateLabelTitle p.1 ++ ": ".toList ++ p.2.1

/-- The monetary block (`if any(monetary_values.values()):` then one
line per nonempty category, `category.title()` evaluated on the fixed
keys). -/
def monetarySection (mv : MonetaryDict) : List Str :=
  if mv.damages.isEmpty && mv.costs.isEmpty && mv.settlements.isEmpty && mv.other.isEmpty then []
  else "\nMONETARY ASPECTS:".toList
    :: ((if mv.damages.isEmpty then [] else ["Damages: ".toList ++ joinComma mv.damages])
      ++ (if mv.costs.isEmpty then [] else ["Costs: ".toList ++ joinComma mv.costs])
      ++ (if mv.settlements.isEmpty then [] else ["Settlements: ".toList ++ joinComma mv.settlements])
      ++ (if mv.other.isEmpty then [] else ["Other: ".toList ++ joinComma mv.other]))

/-- The per-category lines of the contract-elements loop: for a nonempty
category, `\n{category.title()}:` followed by `- {element}` lines for
`elements[:3]`. -/
def ceCategoryChunk (title : Str) (elems : List Str) : List Str :=
  if elems.isEmpty then []
  else ('\n' :: (title ++ [':'])) :: (elems.take 3).map fun e => '-' :: ' ' :: e

/-- The contract-elements block (`if any(contract_elements.values()):`). -/
def ceSection (ce : ContractElements) : List Str :=
  if ce.obligations.isEmpty && ce.breaches.isEmpty && ce.remedies.isEmpty && ce.terms.isEmpty then []
  else "\nKEY CONTRACT ELEMENTS:".toList
    :: (ceCategoryChunk "Obligations".toList ce.obligations
      ++ ceCategoryChunk "Breaches".toList ce.breaches
      ++ ceCategoryChunk "Remedies".toList ce.remedies
      ++ ceCategoryChunk "Terms".toList ce.terms)

/-- The full `summary_parts` list assembled from the four extraction
results. -/
def assembleParts (mv : MonetaryDict) (p : Parties) (dates : DateDict) (ce : ContractElements) : List Str :=
  partiesSection p ++ datesSection dates ++ monetarySection mv ++ ceSection ce

/-- `summary_parts` as built for a given text and pipeline output. -/
def summaryParts (text : Str) (doc : Doc) : List Str :=
  assembleParts (extract_monetary_values text) (extract_parties text doc)
    (extract_key_dates doc) (extract_contract_elements doc)

/-- `generate_commercial_summary` on the success path:
`"\n".join(summary_parts)`. -/
def generate_commercial_summary (text : Str) (doc : Doc) : Str :=
  List.intercalate ['\n'] (summaryParts text doc)

/-- The error string built by the `except` clause. -/
def errorMessageFor (e : Str) : Str :=
  "Error generating commercial summary: ".toList ++ e

/-- `generate_commercial_summary` with its `try`/`except`: each of the
four extraction calls (which invoke the external pipeline and may
raise) is a fallible step, sequenced in source order; any raised
exception is caught and converted to the error string, discarding any
partially assembled parts. -/
def generate_commercial_summary_run (mv : Except Str MonetaryDict)
    (pr : Except Str Parties) (dt : Except Str DateDict)
    (ce : Except Str ContractElements) : Str :=
  match (do
      let m ← mv
      let p ← pr
      let d ← dt
      let c ← ce
      pure (List.intercalate ['\n'] (assembleParts m p d c)) : Except Str Str) with
  | .ok s => s
  | .error e => errorMessageFor e

/-! ### The Flask endpoint -/

inductive HttpMethod
  | GET
  | POST
deriving DecidableEq

/-- An incoming request to `/summary` (method and payload are the only
request-dependent data). -/
structure HttpRequest where
  method : HttpMethod
  payload : Str
deriving DecidableEq

structure HttpResponse where
  status : Nat
  body : Str
deriving DecidableEq

/-- The module-level `summary = summarizer.generate_commercial_summary(case_text)`,
computed once at startup from the hardcoded case text and the pipeline's
output on it. -/
def moduleSummary (caseText : Str) (caseDoc : Doc) : Str :=
  generate_commercial_summary caseText caseDoc

/-- The `/summary` handler `predict`: it returns the precomputed summary
string (Flask wraps a returned string in a 200 response), reading
nothing from the request. -/
def predict (startupSummary : Str) (_req : HttpRequest) : HttpResponse :=
  { status := 200, body := startupSummary }

/-! ## Lemmas about the outcome state machine -/

/-- Sentences without a trigger phrase leave the SCANNING state and the
empty record untouched. -/
lemma foldl_outcome_no_trigger (pre : List Str)
    (h : ∀ s ∈ pre, hasTrigger s = false) :
    pre.foldl outcomeStep (emptyOutcome, false) = (emptyOutcome, false) := by
  induction pre with
  | nil => rfl
  | cons s rest ih =>
      have hs : hasTrigger s = false := h s (List.mem_cons_self s rest)
      have hstep : outcomeStep (emptyOutcome, false) s = (emptyOutcome, false) := by
        simp [outcomeStep, hs]
      rw [List.foldl_cons, hstep]
      exact ih fun t ht => h t (List.mem_cons_of_mem s ht)

/-- Once the `judgment_section` flag is set it stays set, and every
further sentence goes through the classification block. -/
lemma foldl_outcome_flag_true (l : List Str) (o : Outcome) :
    l.foldl outcomeStep (o, true) = (l.foldl classifySent o, true) := by
  induction l generalizing o with
  | nil => rfl
  | cons s rest ih =>
      have hstep : outcomeStep (o, true) s = (classifySent o s, true) := by
        simp [outcomeStep]
      rw [List.foldl_cons, hstep, List.foldl_cons]
      exact ih (classifySent o s)

/-- Claim C3: `analyze_case_outcome` populates nothing before a trigger
sentence: any trigger-free prefix of the document contributes nothing to
the result, and a document with no trigger sentence at all yields the
empty outcome record (no decision, no damages, empty reasoning and
findings). -/
theorem no_trigger_no_outcome :
    (∀ (pre rest : List Str), (∀ s ∈ pre, hasTrigger s = false) →
      analyze_case_outcome (pre ++ rest) = analyze_case_outcome rest)
    ∧ (∀ sents : List Str, (∀ s ∈ sents, hasTrigger s = false) →
      analyze_case_outcome sents = emptyOutcome) := by
  constructor
  · intro pre rest h
    unfold analyze_case_outcome
    rw [List.foldl_append, foldl_outcome_no_trigger pre h]
  · intro sents h
    unfold analyze_case_outcome
    rw [foldl_outcome_no_trigger sents h]

/-- Witness for C3 at concrete inputs: a reasoning-keyword sentence with
no trigger phrase contributes nothing, and alone it yields the empty
record. -/
theorem no_trigger_no_outcome_witness :
    analyze_case_outcome
        (["therefore the defendant is liable because of the breach".toList]
          ++ ["the court finds for the plaintiff".toList])
      = analyze_case_outcome ["the court finds for the plaintiff".toList]
    ∧ analyze_case_outcome
        ["therefore the defendant is liable because of the breach".toList]
      = emptyOutcome :=
  ⟨no_trigger_no_outcome.1 _ _ (by decide), no_trigger_no_outcome.2 _ (by decide)⟩

/-- Counterexample to claim C2 as stated: in a one-sentence document
whose only sentence is the trigger sentence, that very sentence is added
to `key_findings` — the trigger sentence is itself classified. -/
theorem trigger_sentence_classified_counterexample :
    hasTrigger "the court finds the evidence persuasive".toList = true
    ∧ (analyze_case_outcome ["the court finds the evidence persuasive".toList]).key_findings
        = ["the court finds the evidence persuasive".toList] := by
  decide

/-- Claim C2 (amended): classification starts at the first trigger
sentence itself, not strictly after it — the flag is raised before the
classification test in the same iteration, so the analysis of a document
equals the classification fold over the suffix beginning with the first
trigger sentence. -/
theorem trigger_sentence_classified :
    ∀ (pre post : List Str) (s : Str),
      (∀ t ∈ pre, hasTrigger t = false) → hasTrigger s = true →
      analyze_case_outcome (pre ++ s :: post)
        = (s :: post).foldl classifySent emptyOutcome := by
  intro pre post s hpre hs
  unfold analyze_case_outcome
  rw [List.foldl_append, foldl_outcome_no_trigger pre hpre, List.foldl_cons]
  have hstep : outcomeStep (emptyOutcome, false) s = (classifySent emptyOutcome s, true) := by
    simp [outcomeStep, hs]
  rw [hstep, foldl_outcome_flag_true, List.foldl_cons]

/-- Witness for (amended) C2 at a concrete input: the lone trigger
sentence is classified (here it contains "grant" and becomes the
decision). -/
theorem trigger_sentence_classified_witness :
    analyze_case_outcome ["it is ordered that the motion be granted".toList]
      = [("it is ordered that the motion be granted".toList)].foldl classifySent emptyOutcome :=
  trigger_sentence_classified [] [] _ (by decide) (by decide)

/-! ## The endpoint returns a request-independent response (C7) -/

/-- Claim C7: the `/summary` handler returns the precomputed summary for
every request — the response (status 200 and body) is identical for any
two requests, whatever their methods and payloads. -/
theorem predict_static_response :
    ∀ (caseText : Str) (caseDoc : Doc) (r1 r2 : HttpRequest),
      predict (moduleSummary caseText caseDoc) r1
        = predict (moduleSummary caseText caseDoc) r2
      ∧ (predict (moduleSummary caseText caseDoc) r1).status = 200 :=
  fun _ _ _ _ => ⟨rfl, rfl⟩

/-! ## The assembler catches every exception (C6) -/

/-- Claim C6: `generate_commercial_summary` always returns a plain
string: if all extraction steps succeed it returns the assembled
summary, and if any step raises, the exception is caught and exactly the
human-readable error string is returned — never a partial report. -/
theorem generate_summary_catches_errors :
    ∀ (mv : Except Str MonetaryDict) (pr : Except Str Parties)
      (dt : Except Str DateDict) (ce : Except Str ContractElements),
      (∀ m p d c, mv = .ok m → pr = .ok p → dt = .ok d → ce = .ok c →
        generate_commercial_summary_run mv pr dt ce
          = List.intercalate ['\n'] (assembleParts m p d c))
      ∧ (∀ e, mv = .error e →
        generate_commercial_summary_run mv pr dt ce = errorMessageFor e)
      ∧ (∀ m e, mv = .ok m → pr = .error e →
        generate_commercial_summary_run mv pr dt ce = errorMessageFor e)
      ∧ (∀ m p e, mv = .ok m → pr = .ok p → dt = .error e →
        generate_commercial_summary_run mv pr dt ce = errorMessageFor e)
      ∧ (∀ m p d e, mv = .ok m → pr = .ok p → dt = .ok d → ce = .error e →
        generate_commercial_summary_run mv pr dt ce = errorMessageFor e) := by
  intro mv pr dt ce
  refine ⟨?_, ?_, ?_, ?_, ?_⟩
  · intro m p d c h1 h2 h3 h4; subst h1; subst h2; subst h3; subst h4; rfl
  · intro e h1; subst h1; rfl
  · intro m e h1 h2; subst h1; subst h2; rfl
  · intro m p e h1 h2 h3; subst h1; subst h2; subst h3; rfl
  · intro m p d e h1 h2 h3 h4; subst h1; subst h2; subst h3; subst h4; rfl

/-- Witness for C6 at concrete inputs: a failing first extraction yields
exactly the error string, and an all-successful (empty) extraction
yields the assembled summary. -/
theorem generate_summary_catches_errors_witness :
    generate_commercial_summary_run (.error "nlp failure".toList)
        (.ok ⟨[], [], []⟩) (.ok []) (.ok ⟨[], [], [], []⟩)
      = errorMessageFor "nlp failure".toList
    ∧ generate_commercial_summary_run (.ok ⟨[], [], [], []⟩)
        (.ok ⟨[], [], []⟩) (.ok []) (.ok ⟨[], [], [], []⟩)
      = List.intercalate ['\n']
          (assembleParts ⟨[], [], [], []⟩ ⟨[], [], []⟩ [] ⟨[], [], [], []⟩) :=
  ⟨(generate_summary_catches_errors _ _ _ _).2.1 _ rfl,
    (generate_summary_catches_errors _ _ _ _).1 _ _ _ _ rfl rfl rfl rfl⟩

/-! ## Monetary classification (C4) -/

/-- The match loop appends each matched string to exactly the category
list chosen by `classifyContext` on its ±50-character window. -/
lemma mcatAdd_damages (c : MCat) (a : Str) (d : MonetaryDict) :
    (mcatAdd c a d).damages = d.damages ++ (if c == MCat.damages then [a] else []) := by
  cases c <;> simp [mcatAdd]

lemma monetaryStep_damages (text : Str) (acc : MonetaryDict) (m : Nat × Nat) :
    (monetaryStep text acc m).damages
      = acc.damages ++ (if classifyContext (slice text (m.1 - 50) (m.2 + 50)) == MCat.damages
          then [slice text m.1 m.2] else []) :=
  mcatAdd_damages (classifyContext (slice text (m.1 - 50) (m.2 + 50))) (slice text m.1 m.2) acc

lemma foldl_monetary_damages (text : Str) (ms : List (Nat × Nat)) :
    ∀ acc : MonetaryDict,
      (ms.foldl (monetaryStep text) acc).damages
        = acc.damages ++ ((ms.filter fun m =>
            classifyContext (slice text (m.1 - 50) (m.2 + 50)) == MCat.damages).map
            fun m => slice text m.1 m.2) := by
  induction ms with
  | nil => intro acc; simp
  | cons m rest ih =>
      intro acc
      rw [List.foldl_cons, ih, monetaryStep_damages, List.filter_cons]
      cases h : (classifyContext (slice text (m.1 - 50) (m.2 + 50)) == MCat.damages) <;>
        simp [h, List.append_assoc]

lemma mcatAdd_costs (c : MCat) (a : Str) (d : MonetaryDict) :
    (mcatAdd c a d).costs = d.costs ++ (if c == MCat.costs then [a] else []) := by
  cases c <;> simp [mcatAdd]

lemma monetaryStep_costs (text : Str) (acc : MonetaryDict) (m : Nat × Nat) :
    (monetaryStep text acc m).costs
      = acc.costs ++ (if classifyContext (slice text (m.1 - 50) (m.2 + 50)) == MCat.costs
          then [slice text m.1 m.2] else []) :=
  mcatAdd_costs (classifyContext (slice text (m.1 - 50) (m.2 + 50))) (slice text m.1 m.2) acc

lemma foldl_monetary_costs (text : Str) (ms : List (Nat × Nat)) :
    ∀ acc : MonetaryDict,
      (ms.foldl (monetaryStep text) acc).costs
        = acc.costs ++ ((ms.filter fun m =>
            classifyContext (slice text (m.1 - 50) (m.2 + 50)) == MCat.costs).map
            fun m => slice text m.1 m.2) := by
  induction ms with
  | nil => intro acc; simp
  | cons m rest ih =>
      intro acc
      rw [List.foldl_cons, ih, monetaryStep_costs, List.filter_cons]
      cases h : (classifyContext (slice text (m.1 - 50) (m.2 + 50)) == MCat.costs) <;>
        simp [h, List.append_assoc]

lemma mcatAdd_settlements (c : MCat) (a : Str) (d : MonetaryDict) :
    (mcatAdd c a d).settlements = d.settlements ++ (if c == MCat.settlements then [a] else []) := by
  cases c <;> simp [mcatAdd]

lemma monetaryStep_settlements (text : Str) (acc : MonetaryDict) (m : Nat × Nat) :
    (monetaryStep text acc m).settlements
      = acc.settlements ++ (if classifyContext (slice text (m.1 - 50) (m.2 + 50)) == MCat.settlements
          then [slice text m.1 m.2] else []) :=
  mcatAdd_settlements (classifyContext (slice text (m.1 - 50) (m.2 + 50))) (slice text m.1 m.2) acc

lemma foldl_monetary_settlements (text : Str) (ms : List (Nat × Nat)) :
    ∀ acc : MonetaryDict,
      (ms.foldl (monetaryStep text) acc).settlements
        = acc.settlements ++ ((ms.filter fun m =>
            classifyContext (slice text (m.1 - 50) (m.2 + 50)) == MCat.settlements).map
            fun m => slice text m.1 m.2) := by
  induction ms with
  | nil => intro acc; simp
  | cons m rest ih =>
      intro acc
      rw [List.foldl_cons, ih, monetaryStep_settlements, List.filter_cons]
      cases h : (classifyContext (slice text (m.1 - 50) (m.2 + 50)) == MCat.settlements) <;>
        simp [h, List.append_assoc]

lemma mcatAdd_other (c : MCat) (a : Str) (d : MonetaryDict) :
    (mcatAdd c a d).other = d.other ++ (if c == MCat.other then [a] else []) := by
  cases c <;> simp [mcatAdd]

lemma monetaryStep_other (text : Str) (acc : MonetaryDict) (m : Nat × Nat) :
    (monetaryStep text acc m).other
      = acc.other ++ (if classifyContext (slice text (m.1 - 50) (m.2 + 50)) == MCat.other
          then [slice text m.1 m.2] else []) :=
  mcatAdd_other (classifyContext (slice text (m.1 - 50) (m.2 + 50))) (slice text m.1 m.2) acc

lemma foldl_monetary_other (text : Str) (ms : List (Nat × Nat)) :
    ∀ acc : MonetaryDict,
      (ms.foldl (monetaryStep text) acc).other
        = acc.other ++ ((ms.filter fun m =>
            classifyContext (slice text (m.1 - 50) (m.2 + 50)) == MCat.other).map
            fun m => slice text m.1 m.2) := by
  induction ms with
  | nil => intro acc; simp
  | cons m rest ih =>
      intro acc
      rw [List.foldl_cons, ih, monetaryStep_other, List.filter_cons]
      cases h : (classifyContext (slice text (m.1 - 50) (m.2 + 50)) == MCat.other) <;>
        simp [h, List.append_assoc]

/-- Claim C4: each money-regex match is put into exactly the category
selected by the first matching rule, in priority order, over the
50-character context window around it (each category list is precisely
the document-ordered matched strings whose window classifies to it); in
particular `$1,200,000` with "damages" in its window lands in the
`damages` list and not in `other`. -/
theorem monetary_values_classification :
    (∀ text : Str, ∀ c : MCat,
      (match c with
        | .damages => (extract_monetary_values text).damages
        | .costs => (extract_monetary_values text).costs
        | .settlements => (extract_monetary_values text).settlements
        | .other => (extract_monetary_values text).other)
        = ((findMatches text 0).filter fun m =>
            classifyContext (slice text (m.1 - 50) (m.2 + 50)) == c).map
            fun m => slice text m.1 m.2)
    ∧ (extract_monetary_values
          "The damages of $1,200,000 were awarded to the plaintiff".toList).damages
        = ["$1,200,000".toList]
    ∧ (extract_monetary_values
          "The damages of $1,200,000 were awarded to the plaintiff".toList).other
        = [] := by
  refine ⟨?_, by decide, by decide⟩
  intro text c
  cases c
  · simpa using foldl_monetary_damages text (findMatches text 0) ⟨[], [], [], []⟩
  · simpa using foldl_monetary_costs text (findMatches text 0) ⟨[], [], [], []⟩
  · simpa using foldl_monetary_settlements text (findMatches text 0) ⟨[], [], [], []⟩
  · simpa using foldl_monetary_other text (findMatches text 0) ⟨[], [], [], []⟩

/-! ## Contract elements are non-exclusive filters (C8) -/

lemma ceStep_obligations (acc : ContractElements) (s : Sent) :
    (ceStep acc s).obligations
      = acc.obligations
        ++ (if containsAny obligationTerms (lower s.text) then [s.text] else []) := by
  cases h1 : containsAny obligationTerms (lower s.text) <;>
    cases h2 : containsAny breachTerms (lower s.text) <;>
      cases h3 : containsAny remedyTerms (lower s.text) <;>
        cases h4 : containsAny termTerms (lower s.text) <;>
          simp [ceStep, h1, h2, h3, h4]

lemma ceStep_breaches (acc : ContractElements) (s : Sent) :
    (ceStep acc s).breaches
      = acc.breaches
        ++ (if containsAny breachTerms (lower s.text) then [s.text] else []) := by
  cases h1 : containsAny obligationTerms (lower s.text) <;>
    cases h2 : containsAny breachTerms (lower s.text) <;>
      cases h3 : containsAny remedyTerms (lower s.text) <;>
        cases h4 : containsAny termTerms (lower s.text) <;>
          simp [ceStep, h1, h2, h3, h4]

lemma ceStep_remedies (acc : ContractElements) (s : Sent) :
    (ceStep acc s).remedies
      = acc.remedies
        ++ (if containsAny remedyTerms (lower s.text) then [s.text] else []) := by
  cases h1 : containsAny obligationTerms (lower s.text) <;>
    cases h2 : containsAny breachTerms (lower s.text) <;>
      cases h3 : containsAny remedyTerms (lower s.text) <;>
        cases h4 : containsAny termTerms (lower s.text) <;>
          simp [ceStep, h1, h2, h3, h4]

lemma ceStep_terms (acc : ContractElements) (s : Sent) :
    (ceStep acc s).terms
      = acc.terms
        ++ (if containsAny termTerms (lower s.text) then [s.text] else []) := by
  cases h1 : containsAny obligationTerms (lower s.text) <;>
    cases h2 : containsAny breachTerms (lower s.text) <;>
      cases h3 : containsAny remedyTerms (lower s.text) <;>
        cases h4 : containsAny termTerms (lower s.text) <;>
          simp [ceStep, h1, h2, h3, h4]

lemma foldl_ce_obligations (sents : List Sent) :
    ∀ acc : ContractElements,
      (sents.foldl ceStep acc).obligations
        = acc.obligations
          ++ ((sents.filter fun s => containsAny obligationTerms (lower s.text)).map
            fun s => s.text) := by
  induction sents with
  | nil => intro acc; simp
  | cons s rest ih =>
      intro acc
      rw [List.foldl_cons, ih, ceStep_obligations, List.filter_cons]
      cases h : containsAny obligationTerms (lower s.text) <;> simp [h, List.append_assoc]

lemma foldl_ce_breaches (sents : List Sent) :
    ∀ acc : ContractElements,
      (sents.foldl ceStep acc).breaches
        = acc.breaches
          ++ ((sents.filter fun s => containsAny breachTerms (lower s.text)).map
            fun s => s.text) := by
  induction sents with
  | nil => intro acc; simp
  | cons s rest ih =>
      intro acc
      rw [List.foldl_cons, ih, ceStep_breaches, List.filter_cons]
      cases h : containsAny breachTerms (lower s.text) <;> simp [h, List.append_assoc]

lemma foldl_ce_remedies (sents : List Sent) :
    ∀ acc : ContractElements,
      (sents.foldl ceStep acc).remedies
        = acc.remedies
          ++ ((sents.filter fun s => containsAny remedyTerms (lower s.text)).map
            fun s => s.text) := by
  induction sents with
  | nil => intro acc; simp
  | cons s rest ih =>
      intro acc
      rw [List.foldl_cons, ih, ceStep_remedies, List.filter_cons]
      cases h : containsAny remedyTerms (lower s.text) <;> simp [h, List.append_assoc]

lemma foldl_ce_terms (sents : List Sent) :
    ∀ acc : ContractElements,
      (sents.foldl ceStep acc).terms
        = acc.terms
          ++ ((sents.filter fun s => containsAny termTerms (lower s.text)).map
            fun s => s.text) := by
  induction sents with
  | nil => intro acc; simp
  | cons s rest ih =>
      intro acc
      rw [List.foldl_cons, ih, ceStep_terms, List.filter_cons]
      cases h : containsAny termTerms (lower s.text) <;> simp [h, List.append_assoc]

/-- Claim C8: each of the four returned lists is exactly the
document-ordered list of sentences whose lower-cased text contains a
keyword of that group; the tests are independent, so a sentence matching
several groups appears in each corresponding list. -/
theorem contract_elements_nonexclusive :
    ∀ doc : Doc,
      ((extract_contract_elements doc).obligations
          = ((doc.sents.filter fun s => containsAny obligationTerms (lower s.text)).map
            fun s => s.text))
      ∧ ((extract_contract_elements doc).breaches
          = ((doc.sents.filter fun s => containsAny breachTerms (lower s.text)).map
            fun s => s.text))
      ∧ ((extract_contract_elements doc).remedies
          = ((doc.sents.filter fun s => containsAny remedyTerms (lower s.text)).map
            fun s => s.text))
      ∧ ((extract_contract_elements doc).terms
          = ((doc.sents.filter fun s => containsAny termTerms (lower s.text)).map
            fun s => s.text))
      ∧ (∀ s ∈ doc.sents,
          (containsAny obligationTerms (lower s.text) = true →
            s.text ∈ (extract_contract_elements doc).obligations)
          ∧ (containsAny breachTerms (lower s.text) = true →
            s.text ∈ (extract_contract_elements doc).breaches)
          ∧ (containsAny remedyTerms (lower s.text) = true →
            s.text ∈ (extract_contract_elements doc).remedies)
          ∧ (containsAny termTerms (lower s.text) = true →
            s.text ∈ (extract_contract_elements doc).terms)) := by
  intro doc
  have h1 : (extract_contract_elements doc).obligations
      = ((doc.sents.filter fun s => containsAny obligationTerms (lower s.text)).map
        fun s => s.text) := by
    simpa using foldl_ce_obligations doc.sents ⟨[], [], [], []⟩
  have h2 : (extract_contract_elements doc).breaches
      = ((doc.sents.filter fun s => containsAny breachTerms (lower s.text)).map
        fun s => s.text) := by
    simpa using foldl_ce_breaches doc.sents ⟨[], [], [], []⟩
  have h3 : (extract_contract_elements doc).remedies
      = ((doc.sents.filter fun s => containsAny remedyTerms (lower s.text)).map
        fun s => s.text) := by
    simpa using foldl_ce_remedies doc.sents ⟨[], [], [], []⟩
  have h4 : (extract_contract_elements doc).terms
      = ((doc.sents.filter fun s => containsAny termTerms (lower s.text)).map
        fun s => s.text) := by
    simpa using foldl_ce_terms doc.sents ⟨[], [], [], []⟩
  refine ⟨h1, h2, h3, h4, ?_⟩
  intro s hs
  refine ⟨fun hh => ?_, fun hh => ?_, fun hh => ?_, fun hh => ?_⟩
  · rw [h1]; exact List.mem_map_of_mem _ (List.mem_filter.mpr ⟨hs, hh⟩)
  · rw [h2]; exact List.mem_map_of_mem _ (List.mem_filter.mpr ⟨hs, hh⟩)
  · rw [h3]; exact List.mem_map_of_mem _ (List.mem_filter.mpr ⟨hs, hh⟩)
  · rw [h4]; exact List.mem_map_of_mem _ (List.mem_filter.mpr ⟨hs, hh⟩)

/-- Witness for C8 at a concrete document: one sentence matching all
four keyword groups appears in all four lists. -/
theorem contract_elements_nonexclusive_witness :
    ("The breach of any term shall be remedied by damages".toList
        ∈ (extract_contract_elements
            ⟨[], [⟨"The breach of any term shall be remedied by damages".toList, 0, 10⟩]⟩).obligations)
    ∧ ("The breach of any term shall be remedied by damages".toList
        ∈ (extract_contract_elements
            ⟨[], [⟨"The breach of any term shall be remedied by damages".toList, 0, 10⟩]⟩).breaches)
    ∧ ("The breach of any term shall be remedied by damages".toList
        ∈ (extract_contract_elements
            ⟨[], [⟨"The breach of any term shall be remedied by damages".toList, 0, 10⟩]⟩).remedies)
    ∧ ("The breach of any term shall be remedied by damages".toList
        ∈ (extract_contract_elements
            ⟨[], [⟨"The breach of any term shall be remedied by damages".toList, 0, 10⟩]⟩).terms) := by
  have h := (contract_elements_nonexclusive
      ⟨[], [⟨"The breach of any term shall be remedied by damages".toList, 0, 10⟩]⟩).2.2.2.2
    ⟨"The breach of any term shall be remedied by damages".toList, 0, 10⟩
    (List.mem_cons_self _ _)
  exact ⟨h.1 (by decide), h.2.1 (by decide), h.2.2.1 (by decide), h.2.2.2 (by decide)⟩

/-! ## Key dates: one slot per label, last qualifying entity wins (C5) -/

lemma dictFind_dictSet (k : DateLabel) (v : DateEntry) (l : DateLabel) (d : DateDict) :
    dictFind l (dictSet k v d) = if k = l then some v else dictFind l d := by
  induction d with
  | nil => by_cases h : k = l <;> simp [dictSet, dictFind, h]
  | cons p rest ih =>
      obtain ⟨k2, v2⟩ := p
      by_cases h1 : k2 = k <;> by_cases h2 : k = l <;> by_cases h3 : k2 = l <;>
        simp_all [dictSet, dictFind]

lemma dictSet_keys_mem (k : DateLabel) (v : DateEntry) (l : DateLabel) :
    ∀ d : DateDict, l ∈ (dictSet k v d).map Prod.fst ↔ l = k ∨ l ∈ d.map Prod.fst := by
  intro d
  induction d with
  | nil => simp [dictSet]
  | cons p rest ih =>
      obtain ⟨k2, v2⟩ := p
      by_cases h1 : k2 = k
      · subst h1; simp [dictSet]
      · simp [dictSet, h1, ih]; tauto

lemma dictSet_keys_nodup (k : DateLabel) (v : DateEntry) :
    ∀ d : DateDict, (d.map Prod.fst).Nodup → ((dictSet k v d).map Prod.fst).Nodup := by
  intro d
  induction d with
  | nil => intro _; simp [dictSet]
  | cons p rest ih =>
      obtain ⟨k2, v2⟩ := p
      intro h
      rw [List.map_cons, List.nodup_cons] at h
      by_cases h1 : k2 = k
      · subst h1
        have hset : dictSet k2 v ((k2, v2) :: rest) = (k2, v) :: rest := by
          simp [dictSet]
        rw [hset, List.map_cons, List.nodup_cons]
        exact ⟨h.1, h.2⟩
      · simp only [dictSet, if_neg h1, List.map_cons, List.nodup_cons]
        refine ⟨?_, ih h.2⟩
        rw [dictSet_keys_mem]
        rintro (h2 | h2)
        · exact h1 h2
        · exact h.1 h2

lemma foldl_dictSet_keys_nodup (ps : List (DateLabel × DateEntry)) :
    ∀ init : DateDict, (init.map Prod.fst).Nodup →
      (((ps.foldl (fun d p => dictSet p.1 p.2 d) init)).map Prod.fst).Nodup := by
  induction ps with
  | nil => intro init h; exact h
  | cons p rest ih =>
      intro init h
      rw [List.foldl_cons]
      exact ih _ (dictSet_keys_nodup _ _ _ h)

lemma foldl_dictSet_find (l : DateLabel) (ps : List (DateLabel × DateEntry)) :
    dictFind l (ps.foldl (fun d p => dictSet p.1 p.2 d) [])
      = ((ps.filter fun p => p.1 == l).map Prod.snd).getLast? := by
  induction ps using List.reverseRecOn with
  | nil => simp [dictFind]
  | append_singleton ps p ih =>
      rw [List.foldl_append, List.foldl_cons, List.foldl_nil, dictFind_dictSet,
        List.filter_append, List.map_append]
      by_cases h : p.1 = l
      · simp [h, ih, List.filter_cons]
      · simp [h, ih, List.filter_cons]

lemma foldl_dateStep_filterMap (sents : List Sent) (ents : List Ent) :
    ∀ init : DateDict,
      ents.foldl (fun dates e => dictSetOpt (classifyDateEnt sents e) dates) init
        = (ents.filterMap (classifyDateEnt sents)).foldl (fun d p => dictSet p.1 p.2 d) init := by
  induction ents with
  | nil => intro init; rfl
  | cons e rest ih =>
      intro init
      rw [List.foldl_cons]
      cases h : classifyDateEnt sents e with
      | none => simp only [List.filterMap_cons, h, dictSetOpt]; exact ih init
      | some kv =>
          obtain ⟨k, vv⟩ := kv
          simp only [List.filterMap_cons, h, dictSetOpt, List.foldl_cons]
          exact ih _

/-- Claim C5: the key-date map holds at most one `(date, sentence)` pair
per label (its keys are duplicate-free); for each label the stored pair
is exactly the last qualifying DATE entity's, later qualifying entities
overwriting earlier ones; and an entity that does not qualify — not a
DATE, no enclosing sentence, or a sentence matching no keyword group —
contributes nothing. -/
theorem key_dates_last_wins :
    ∀ doc : Doc,
      (((extract_key_dates doc).map Prod.fst).Nodup)
      ∧ (∀ l : DateLabel,
          dictFind l (extract_key_dates doc)
            = (((doc.ents.filterMap (classifyDateEnt doc.sents)).filter fun p =>
                p.1 == l).map Prod.snd).getLast?)
      ∧ (∀ e : Ent, classifyDateEnt doc.sents e = none →
          extract_key_dates ⟨doc.ents ++ [e], doc.sents⟩ = extract_key_dates doc) := by
  intro doc
  refine ⟨?_, ?_, ?_⟩
  · unfold extract_key_dates
    rw [foldl_dateStep_filterMap]
    exact foldl_dictSet_keys_nodup _ _ (by simp)
  · intro l
    unfold extract_key_dates
    rw [foldl_dateStep_filterMap]
    exact foldl_dictSet_find l _
  · intro e he
    have h0 : extract_key_dates ⟨doc.ents ++ [e], doc.sents⟩
        = (doc.ents ++ [e]).foldl
            (fun dates e2 => dictSetOpt (classifyDateEnt doc.sents e2) dates) [] := rfl
    rw [h0, List.foldl_append, List.foldl_cons, List.foldl_nil]
    show dictSetOpt (classifyDateEnt doc.sents e) _ = _
    rw [he]
    rfl

/-- Witness for C5 at a concrete document: appending a DATE entity whose
token span lies in no sentence leaves the extracted map unchanged. -/
theorem key_dates_last_wins_witness :
    extract_key_dates
        ⟨[⟨.DATE, "January 5, 2020".toList, 27, 42, 6, 10⟩,
            ⟨.DATE, "March 2021".toList, 50, 60, 20, 23⟩],
          [⟨"The contract was signed on January 5, 2020.".toList, 0, 11⟩]⟩
      = extract_key_dates
          ⟨[⟨.DATE, "January 5, 2020".toList, 27, 42, 6, 10⟩],
            [⟨"The contract was signed on January 5, 2020.".toList, 0, 11⟩]⟩ :=
  (key_dates_last_wins
      ⟨[⟨.DATE, "January 5, 2020".toList, 27, 42, 6, 10⟩],
        [⟨"The contract was signed on January 5, 2020.".toList, 0, 11⟩]⟩).2.2
    ⟨.DATE, "March 2021".toList, 50, 60, 20, 23⟩ (by decide)

/-! ## Parties: duplicate-free lists that need not be disjoint (C10) -/

lemma insertNew_nodup (x : Str) (l : List Str) (h : l.Nodup) : (insertNew x l).Nodup := by
  by_cases hx : x ∈ l
  · simpa [insertNew, hx] using h
  · rw [insertNew, if_neg hx]
    refine List.Nodup.append h (List.nodup_singleton x) ?_
    intro a ha hax
    rw [List.mem_singleton] at hax
    subst hax
    exact hx ha

lemma partiesStep_nodup (text : Str) (e : Ent) (p : Parties)
    (h1 : p.plaintiffs.Nodup) (h2 : p.defendants.Nodup) (h3 : p.other_parties.Nodup) :
    (partiesStep text p e).plaintiffs.Nodup ∧ (partiesStep text p e).defendants.Nodup
      ∧ (partiesStep text p e).other_parties.Nodup := by
  by_cases hl : e.label = EntLabel.ORG ∨ e.label = EntLabel.PERSON
  · by_cases hp : containsSub "plaintiff".toList
        (lower (slice text (e.start_char - 20) (e.end_char + 20))) = true
    · simp only [partiesStep, hl, hp, if_true]
      exact ⟨insertNew_nodup _ _ h1, h2, h3⟩
    · by_cases hd : containsSub "defendant".toList
          (lower (slice text (e.start_char - 20) (e.end_char + 20))) = true
      · simp only [partiesStep, hl, hp, hd, if_true, if_false]
        exact ⟨h1, insertNew_nodup _ _ h2, h3⟩
      · simp only [partiesStep, hl, hp, hd, if_true, if_false]
        exact ⟨h1, h2, insertNew_nodup _ _ h3⟩
  · simp only [partiesStep, hl, if_false]
    exact ⟨h1, h2, h3⟩

lemma foldl_parties_nodup (text : Str) (ents : List Ent) :
    ∀ p : Parties, p.plaintiffs.Nodup → p.defendants.Nodup → p.other_parties.Nodup →
      ((ents.foldl (partiesStep text) p).plaintiffs.Nodup
        ∧ (ents.foldl (partiesStep text) p).defendants.Nodup
        ∧ (ents.foldl (partiesStep text) p).other_parties.Nodup) := by
  induction ents with
  | nil => intro p h1 h2 h3; exact ⟨h1, h2, h3⟩
  | cons e rest ih =>
      intro p h1 h2 h3
      rw [List.foldl_cons]
      obtain ⟨g1, g2, g3⟩ := partiesStep_nodup text e p h1 h2 h3
      exact ih _ g1 g2 g3

/-- Claim C10: the three party lists are each duplicate-free (they come
from sets), but they are not disjoint across categories: an entity name
recognized at two positions, once with "plaintiff" in its 20-character
context window and once with neither keyword, ends up in both the
`plaintiffs` and the `other_parties` lists. -/
theorem parties_nodup_not_disjoint :
    (∀ (text : Str) (doc : Doc),
      (extract_parties text doc).plaintiffs.Nodup
      ∧ (extract_parties text doc).defendants.Nodup
      ∧ (extract_parties text doc).other_parties.Nodup)
    ∧ (extract_parties
          "plaintiff Acme sued Bob. Meanwhile Acme opened a store in Paris.".toList
          ⟨[⟨.ORG, "Acme".toList, 10, 14, 1, 2⟩, ⟨.ORG, "Acme".toList, 35, 39, 7, 8⟩],
            [⟨"plaintiff Acme sued Bob.".toList, 0, 5⟩,
              ⟨"Meanwhile Acme opened a store in Paris.".toList, 5, 13⟩]⟩).plaintiffs
        = ["Acme".toList]
    ∧ (extract_parties
          "plaintiff Acme sued Bob. Meanwhile Acme opened a store in Paris.".toList
          ⟨[⟨.ORG, "Acme".toList, 10, 14, 1, 2⟩, ⟨.ORG, "Acme".toList, 35, 39, 7, 8⟩],
            [⟨"plaintiff Acme sued Bob.".toList, 0, 5⟩,
              ⟨"Meanwhile Acme opened a store in Paris.".toList, 5, 13⟩]⟩).other_parties
        = ["Acme".toList] := by
  refine ⟨?_, by decide, by decide⟩
  intro text doc
  exact foldl_parties_nodup text doc.ents ⟨[], [], []⟩ (by simp) (by simp) (by simp)

/-! ## Shape of the assembled summary parts (for C1 and C9) -/

/-- A list starting with a fixed two-character prefix differs from any
list with a different two-character prefix. -/
lemma ne_append_of_take_two (t p r : Str) (hp : 2 ≤ p.length)
    (h : List.take 2 t ≠ List.take 2 p) : t ≠ p ++ r := by
  intro he
  apply h
  rw [he, List.take_append_of_le_length hp]

lemma mem_partiesSection (p : Parties) (x : Str) (hx : x ∈ partiesSection p) :
    x = "PARTIES INVOLVED:".toList
    ∨ (∃ r, x = "Plaintiff(s): ".toList ++ r)
    ∨ (∃ r, x = "Defendant(s): ".toList ++ r) := by
  simp only [partiesSection, List.mem_cons, List.mem_append] at hx
  rcases hx with hx | hx | hx
  · exact Or.inl hx
  · split at hx
    · simp at hx
    · rw [List.mem_singleton] at hx
      exact Or.inr (Or.inl ⟨_, hx⟩)
  · split at hx
    · simp at hx
    · rw [List.mem_singleton] at hx
      exact Or.inr (Or.inr ⟨_, hx⟩)

lemma mem_datesSection (d : DateDict) (x : Str) (hx : x ∈ datesSection d) :
    x = "\nKEY DATES:".toList ∨ ∃ lbl r, x = dateLabelTitle lbl ++ r := by
  unfold datesSection at hx
  split at hx
  · simp at hx
  · rw [List.mem_cons] at hx
    rcases hx with hx | hx
    · exact Or.inl hx
    · rw [List.mem_map] at hx
      obtain ⟨pr, _, hpr⟩ := hx
      refine Or.inr ⟨pr.1, ": ".toList ++ pr.2.1, ?_⟩
      rw [← List.append_assoc]
      exact hpr.symm

lemma mem_monetarySection (mv : MonetaryDict) (x : Str) (hx : x ∈ monetarySection mv) :
    x = "\nMONETARY ASPECTS:".toList
    ∨ (∃ r, x = "Damages: ".toList ++ r)
    ∨ (∃ r, x = "Costs: ".toList ++ r)
    ∨ (∃ r, x = "Settlements: ".toList ++ r)
    ∨ (∃ r, x = "Other: ".toList ++ r) := by
  unfold monetarySection at hx
  split at hx
  · simp at hx
  · rw [List.mem_cons] at hx
    rcases hx with hx | hx
    · exact Or.inl hx
    · simp only [List.mem_append] at hx
      rcases hx with ((hx | hx) | hx) | hx
      · split at hx
        · simp at hx
        · rw [List.mem_singleton] at hx
          exact Or.inr (Or.inl ⟨_, hx⟩)
      · split at hx
        · simp at hx
        · rw [List.mem_singleton] at hx
          exact Or.inr (Or.inr (Or.inl ⟨_, hx⟩))
      · split at hx
        · simp at hx
        · rw [List.mem_singleton] at hx
          exact Or.inr (Or.inr (Or.inr (Or.inl ⟨_, hx⟩)))
      · split at hx
        · simp at hx
        · rw [List.mem_singleton] at hx
          exact Or.inr (Or.inr (Or.inr (Or.inr ⟨_, hx⟩)))

lemma mem_ceCategoryChunk (t : Str) (l : List Str) (x : Str)
    (hx : x ∈ ceCategoryChunk t l) :
    x = '\n' :: (t ++ [':']) ∨ ∃ e, x = '-' :: ' ' :: e := by
  unfold ceCategoryChunk at hx
  split at hx
  · simp at hx
  · rw [List.mem_cons] at hx
    rcases hx with hx | hx
    · exact Or.inl hx
    · rw [List.mem_map] at hx
      obtain ⟨e, _, he⟩ := hx
      exact Or.inr ⟨e, he.symm⟩

lemma mem_ceSection (ce : ContractElements) (x : Str) (hx : x ∈ ceSection ce) :
    x = "\nKEY CONTRACT ELEMENTS:".toList
    ∨ x = '\n' :: ("Obligations".toList ++ [':'])
    ∨ x = '\n' :: ("Breaches".toList ++ [':'])
    ∨ x = '\n' :: ("Remedies".toList ++ [':'])
    ∨ x = '\n' :: ("Terms".toList ++ [':'])
    ∨ ∃ e, x = '-' :: ' ' :: e := by
  unfold ceSection at hx
  split at hx
  · simp at hx
  · rw [List.mem_cons] at hx
    rcases hx with hx | hx
    · exact Or.inl hx
    · simp only [List.mem_append] at hx
      rcases hx with ((hx | hx) | hx) | hx
      · rcases mem_ceCategoryChunk _ _ _ hx with h | h
        · exact Or.inr (Or.inl h)
        · exact Or.inr (Or.inr (Or.inr (Or.inr (Or.inr h))))
      · rcases mem_ceCategoryChunk _ _ _ hx with h | h
        · exact Or.inr (Or.inr (Or.inl h))
        · exact Or.inr (Or.inr (Or.inr (Or.inr (Or.inr h))))
      · rcases mem_ceCategoryChunk _ _ _ hx with h | h
        · exact Or.inr (Or.inr (Or.inr (Or.inl h)))
        · exact Or.inr (Or.inr (Or.inr (Or.inr (Or.inr h))))
      · rcases mem_ceCategoryChunk _ _ _ hx with h | h
        · exact Or.inr (Or.inr (Or.inr (Or.inr (Or.inl h))))
        · exact Or.inr (Or.inr (Or.inr (Or.inr (Or.inr h))))

/-- Taking one character of an appended string sees only a nonempty
left part. -/
lemma take_one_append (p r : Str) (hp : 1 ≤ p.length) :
    List.take 1 (p ++ r) = List.take 1 p :=
  List.take_append_of_le_length hp

lemma not_in_partiesSection_of_nl (t : Str) (h1 : List.take 1 t = ['\n'])
    (p : Parties) : t ∉ partiesSection p := by
  intro hx
  rcases mem_partiesSection p _ hx with h | ⟨r, h⟩ | ⟨r, h⟩ <;>
    · have h2 := congrArg (List.take 1) h
      rw [h1] at h2
      first
        | exact absurd h2 (by decide)
        | · rw [take_one_append _ _ (by decide)] at h2
            exact absurd h2 (by decide)

lemma not_in_datesSection (t : Str) (hhdr : t ≠ "\nKEY DATES:".toList)
    (h1 : List.take 1 t = ['\n']) (d : DateDict) : t ∉ datesSection d := by
  intro hx
  rcases mem_datesSection d _ hx with h | ⟨lbl, r, h⟩
  · exact hhdr h
  · have h2 := congrArg (List.take 1) h
    rw [h1] at h2
    cases lbl <;>
      · rw [take_one_append _ _ (by decide)] at h2
        exact absurd h2 (by decide)

lemma not_in_monetarySection (t : Str) (hhdr : t ≠ "\nMONETARY ASPECTS:".toList)
    (h1 : List.take 1 t = ['\n']) (mv : MonetaryDict) : t ∉ monetarySection mv := by
  intro hx
  rcases mem_monetarySection mv _ hx with h | ⟨r, h⟩ | ⟨r, h⟩ | ⟨r, h⟩ | ⟨r, h⟩
  · exact hhdr h
  all_goals
    have h2 := congrArg (List.take 1) h
    rw [h1, take_one_append _ _ (by decide)] at h2
    exact absurd h2 (by decide)

lemma not_in_ceSection (t : Str)
    (hhdr : t ≠ "\nKEY CONTRACT ELEMENTS:".toList)
    (hob : t ≠ '\n' :: ("Obligations".toList ++ [':']))
    (hbr : t ≠ '\n' :: ("Breaches".toList ++ [':']))
    (hre : t ≠ '\n' :: ("Remedies".toList ++ [':']))
    (hte : t ≠ '\n' :: ("Terms".toList ++ [':']))
    (h1 : List.take 1 t = ['\n'])
    (ce : ContractElements) : t ∉ ceSection ce := by
  intro hx
  rcases mem_ceSection ce _ hx with h | h | h | h | h | ⟨e, h⟩
  · exact hhdr h
  · exact hob h
  · exact hbr h
  · exact hre h
  · exact hte h
  · have h2 := congrArg (List.take 1) h
    rw [h1, show List.take 1 ('-' :: ' ' :: e) = ['-'] from rfl] at h2
    exact absurd h2 (by decide)

/-! ## Section omission in the assembled summary (C1) -/

/-- Counterexample to claim C1 as stated: on a text from which no
plaintiffs and no defendants are extracted, the returned summary still
contains the "PARTIES INVOLVED" line — the parties header is appended
unconditionally. -/
theorem parties_header_always_counterexample :
    (extract_parties [] ⟨[], []⟩).plaintiffs = []
    ∧ (extract_parties [] ⟨[], []⟩).defendants = []
    ∧ containsSub "PARTIES INVOLVED".toList (generate_commercial_summary [] ⟨[], []⟩) = true := by
  decide

/-- Claim C1 (amended): the assembler omits the KEY DATES, MONETARY
ASPECTS and KEY CONTRACT ELEMENTS section headers entirely when the
corresponding data is empty, and omits the Plaintiff(s)/Defendant(s)
lines when those lists are empty — but the "PARTIES INVOLVED:" header is
emitted unconditionally, so a text with no extracted parties still
yields that line (and nothing under it). -/
theorem summary_section_omission_amended :
    ∀ (text : Str) (doc : Doc),
      "PARTIES INVOLVED:".toList ∈ summaryParts text doc
      ∧ ((extract_parties text doc).plaintiffs = [] →
          (extract_parties text doc).defendants = [] →
          partiesSection (extract_parties text doc) = ["PARTIES INVOLVED:".toList])
      ∧ (extract_key_dates doc = [] →
          "\nKEY DATES:".toList ∉ summaryParts text doc)
      ∧ (extract_monetary_values text = ⟨[], [], [], []⟩ →
          "\nMONETARY ASPECTS:".toList ∉ summaryParts text doc)
      ∧ (extract_contract_elements doc = ⟨[], [], [], []⟩ →
          "\nKEY CONTRACT ELEMENTS:".toList ∉ summaryParts text doc) := by
  intro text doc
  refine ⟨?_, ?_, ?_, ?_, ?_⟩
  · exact List.mem_append_left _ (List.mem_append_left _
      (List.mem_append_left _ (List.mem_cons_self _ _)))
  · intro h1 h2
    simp [partiesSection, h1, h2]
  · intro hd hx
    unfold summaryParts assembleParts at hx
    rw [hd, show datesSection [] = [] from rfl, List.append_nil] at hx
    rcases List.mem_append.mp hx with hx2 | hx2
    · rcases List.mem_append.mp hx2 with hx3 | hx3
      · exact not_in_partiesSection_of_nl _ (by decide) _ hx3
      · exact not_in_monetarySection _ (by decide) (by decide) _ hx3
    · exact not_in_ceSection _ (by decide) (by decide) (by decide) (by decide)
        (by decide) (by decide) _ hx2
  · intro hm hx
    unfold summaryParts assembleParts at hx
    rw [hm, show monetarySection ⟨[], [], [], []⟩ = [] from rfl, List.append_nil] at hx
    rcases List.mem_append.mp hx with hx2 | hx2
    · rcases List.mem_append.mp hx2 with hx3 | hx3
      · exact not_in_partiesSection_of_nl _ (by decide) _ hx3
      · exact not_in_datesSection _ (by decide) (by decide) _ hx3
    · exact not_in_ceSection _ (by decide) (by decide) (by decide) (by decide)
        (by decide) (by decide) _ hx2
  · intro hc hx
    unfold summaryParts assembleParts at hx
    rw [hc, show ceSection ⟨[], [], [], []⟩ = [] from rfl, List.append_nil] at hx
    rcases List.mem_append.mp hx with hx2 | hx2
    · rcases List.mem_append.mp hx2 with hx3 | hx3
      · exact not_in_partiesSection_of_nl _ (by decide) _ hx3
      · exact not_in_datesSection _ (by decide) (by decide) _ hx3
    · exact not_in_monetarySection _ (by decide) (by decide) _ hx2

/-- Witness for (amended) C1 at a concrete input with nothing extracted:
the parties header is present, nothing else is. -/
theorem summary_section_omission_amended_witness :
    "PARTIES INVOLVED:".toList ∈ summaryParts [] ⟨[], []⟩
    ∧ partiesSection (extract_parties [] ⟨[], []⟩) = ["PARTIES INVOLVED:".toList]
    ∧ "\nKEY DATES:".toList ∉ summaryParts [] ⟨[], []⟩
    ∧ "\nMONETARY ASPECTS:".toList ∉ summaryParts [] ⟨[], []⟩
    ∧ "\nKEY CONTRACT ELEMENTS:".toList ∉ summaryParts [] ⟨[], []⟩ :=
  ⟨(summary_section_omission_amended [] ⟨[], []⟩).1,
    (summary_section_omission_amended [] ⟨[], []⟩).2.1 (by decide) (by decide),
    (summary_section_omission_amended [] ⟨[], []⟩).2.2.1 (by decide),
    (summary_section_omission_amended [] ⟨[], []⟩).2.2.2.1 (by decide),
    (summary_section_omission_amended [] ⟨[], []⟩).2.2.2.2 (by decide)⟩

/-! ## Contract-element sections render at most the first three
sentences (C9) -/

/-- Claim C9: within the summary assembled by
`generate_commercial_summary`, each non-empty contract-element category
is rendered as its header followed by exactly `min n 3` item lines —
the first `min n 3` sentences of the category in document order
(`elements[:3]`). -/
theorem contract_elements_rendered_take3 :
    ∀ (text : Str) (doc : Doc),
      (summaryParts text doc
        = partiesSection (extract_parties text doc)
          ++ datesSection (extract_key_dates doc)
          ++ monetarySection (extract_monetary_values text)
          ++ ceSection (extract_contract_elements doc))
      ∧ (∀ (t : Str) (l : List Str),
          (t, l) ∈ [("Obligations".toList, (extract_contract_elements doc).obligations),
            ("Breaches".toList, (extract_contract_elements doc).breaches),
            ("Remedies".toList, (extract_contract_elements doc).remedies),
            ("Terms".toList, (extract_contract_elements doc).terms)] →
          ceCategoryChunk t l
            = (if l.isEmpty then []
                else ('\n' :: (t ++ [':'])) :: (l.take 3).map fun e => '-' :: ' ' :: e)
          ∧ (l.take 3).length = min l.length 3
          ∧ l.take 3 ++ l.drop 3 = l) := by
  intro text doc
  refine ⟨rfl, ?_⟩
  intro t l _
  refine ⟨rfl, ?_, List.take_append_drop 3 l⟩
  rw [List.length_take, Nat.min_comm]

/-- Witness for C9 at a concrete document whose four sentences all
match the obligation keywords: the rendered obligations category lists
`min 4 3 = 3` sentences, the first three. -/
theorem contract_elements_rendered_take3_witness :
    (((extract_contract_elements
        ⟨[], [⟨"a shall pay".toList, 0, 3⟩, ⟨"b shall deliver".toList, 3, 6⟩,
          ⟨"c shall perform".toList, 6, 9⟩, ⟨"d shall act".toList, 9, 12⟩]⟩).obligations.take 3).length
      = min (extract_contract_elements
          ⟨[], [⟨"a shall pay".toList, 0, 3⟩, ⟨"b shall deliver".toList, 3, 6⟩,
            ⟨"c shall perform".toList, 6, 9⟩, ⟨"d shall act".toList, 9, 12⟩]⟩).obligations.length 3)
    ∧ ((extract_contract_elements
        ⟨[], [⟨"a shall pay".toList, 0, 3⟩, ⟨"b shall deliver".toList, 3, 6⟩,
          ⟨"c shall perform".toList, 6, 9⟩, ⟨"d shall act".toList, 9, 12⟩]⟩).obligations.take 3
        ++ (extract_contract_elements
          ⟨[], [⟨"a shall pay".toList, 0, 3⟩, ⟨"b shall deliver".toList, 3, 6⟩,
            ⟨"c shall perform".toList, 6, 9⟩, ⟨"d shall act".toList, 9, 12⟩]⟩).obligations.drop 3
      = (extract_contract_elements
          ⟨[], [⟨"a shall pay".toList, 0, 3⟩, ⟨"b shall deliver".toList, 3, 6⟩,
            ⟨"c shall perform".toList, 6, 9⟩, ⟨"d shall act".toList, 9, 12⟩]⟩).obligations) :=
  ⟨((contract_elements_rendered_take3 []
      ⟨[], [⟨"a shall pay".toList, 0, 3⟩, ⟨"b shall deliver".toList, 3, 6⟩,
        ⟨"c shall perform".toList, 6, 9⟩, ⟨"d shall act".toList, 9, 12⟩]⟩).2 _ _
      (List.mem_cons_self _ _)).2.1,
    ((contract_elements_rendered_take3 []
      ⟨[], [⟨"a shall pay".toList, 0, 3⟩, ⟨"b shall deliver".toList, 3, 6⟩,
        ⟨"c shall perform".toList, 6, 9⟩, ⟨"d shall act".toList, 9, 12⟩]⟩).2 _ _
      (List.mem_cons_self _ _)).2.2⟩

end LegalSummary
